import Mathlib

/-!
Verification of the Fates 3GX hook-injection pipeline.

This file embeds the two patch-generation scripts of the repository,
`scripts/make_inline.py` and `scripts/make_bps.py`, as executable Lean
definitions and proves properties of address resolution, cave allocation,
trampoline synthesis, guard handling, patch verification and hook-table
emission.  Bytes are modelled as natural numbers (each value below 256 in
actual images); the external Keystone instruction encoder and the external
FLIPS diff engine are modelled as opaque function parameters, exactly as the
scripts treat them (the scripts only inspect the length of encoder results).
-/

set_option maxRecDepth 8000

/-- Filler byte test used by both code-cave scanners: a byte is filler when
it equals 0x00 or 0xFF. -/
def isFiller (b : Nat) : Bool := b == 0x00 || b == 0xFF

/-- Python bytearray slice assignment `l[off:off+len(d)] = d`: replace the
slice of `l` starting at `off` of width `d.length` by `d` (appending at the
end when the slice reaches past the end of `l`). -/
def writeBytes (l : List Nat) (off : Nat) (d : List Nat) : List Nat :=
  l.take off ++ d ++ l.drop (off + d.length)

/-- A window of `need` bytes starting at offset `j` lies inside `buf` and
consists entirely of filler bytes. -/
def fillerWin (buf : List Nat) (j need : Nat) : Prop :=
  j + need ≤ buf.length ∧ ((buf.drop j).take need).all isFiller = true

/-- Fatal error conditions of the two pipelines: an external encoder returned
an encoding of unexpected length, no code cave was found (make_bps only), or
the BPS round-trip verification failed. -/
inductive PipeErr where
  | encSize (n : Nat)
  | caveExhausted
  | roundtrip
deriving Repr, DecidableEq

namespace MakeInline

/-- Runtime base address of code.bin (`CODE_BASE` in make_inline.py). -/
def CODE_BASE : Nat := 0x00100000

/-- Number of bytes stolen from each hook site (two ARM instructions). -/
def STOLEN_SIZE : Nat := 8

/-- Fixed slot size reserved for each trampoline in the code cave. -/
def per_tramp : Nat := 0x60

/-- Token parser `_parse_token` of make_inline.py, at the nibble level: each
of the two nibbles is either a wildcard (`none`, the character `?`) or a
fixed hex value.  Returns the (value, mask) pair for one pattern byte. -/
def parse_token : Option Nat → Option Nat → Nat × Nat
  | none, none => (0x00, 0x00)
  | none, some lo => (lo, 0x0F)
  | some hi, none => (hi <<< 4, 0xF0)
  | some hi, some lo => ((hi <<< 4) ||| lo, 0xF0 ||| 0x0F)

/-- `aob_to_pat_mask` of make_inline.py: map the token list to the parallel
pattern and mask byte arrays. -/
def aob_to_pat_mask (toks : List (Option Nat × Option Nat)) : List Nat × List Nat :=
  (toks.map (fun t => (parse_token t.1 t.2).1), toks.map (fun t => (parse_token t.1 t.2).2))

/-- Inner comparison loop of `scan` in make_inline.py: the window matches
when at every position either the mask byte is zero or the masked candidate
equals the masked pattern byte (`zip` truncates at the shortest list). -/
def windowOk : List Nat → List Nat → List Nat → Bool
  | a :: w, b :: p, m :: mk =>
    (decide (m = 0) || decide (a &&& m = b &&& m)) && windowOk w p mk
  | _, _, _ => true

/-- Linear scan of `scan` in make_inline.py, expressed recursively: try the
window at the current offset, else shift by one; give up when the remaining
buffer is shorter than the pattern. -/
def scanGo (pat msk : List Nat) : List Nat → Option Nat
  | [] => if pat.length = 0 then some 0 else none
  | b :: rest =>
    if (b :: rest).length < pat.length then none
    else if windowOk ((b :: rest).take pat.length) pat msk then some 0
    else (scanGo pat msk rest).map (fun x => x + 1)

/-- `scan` of make_inline.py: first offset whose window matches, else none. -/
def scan (buf pat msk : List Nat) : Option Nat := scanGo pat msk buf

/-- Backward scan of `find_code_cave` in make_inline.py: walk the reversed
buffer accumulating a run length of consecutive filler bytes, returning the
current index (`rest.length`) the first time the run reaches `need`. -/
def fccGo (need : Nat) : List Nat → Nat → Option Nat
  | [], _ => none
  | b :: rest, run =>
    if isFiller b then
      (if need ≤ run + 1 then some rest.length else fccGo need rest (run + 1))
    else fccGo need rest 0

/-- `find_code_cave` of make_inline.py: scan from the end of the image
toward the start for a run of at least `need` filler bytes. -/
def find_code_cave (buf : List Nat) (need : Nat) : Option Nat :=
  fccGo need buf.reverse 0

/-- A hook specification of make_inline.py: an optional list of explicit
addresses (each entry is `none` when its textual form failed to parse as an
integer), an optional AOB pattern, and an optional guard pattern. -/
structure HookSpec where
  name : String
  addr : Option (List (Option Nat))
  aob : Option (List (Option Nat × Option Nat))
  guard : Option (List (Option Nat × Option Nat))
deriving Repr, DecidableEq

/-- One row of the generated `kHooks` table. -/
structure HookRecord where
  name : String
  site_off : Nat
  tramp_off : Nat
  guard : List Nat
  guard_len : Nat
deriving Repr, DecidableEq

/-- Mutable state threaded through the hook loop of make_inline.py: the
mutable image buffer `mod`, the arena cursor `cur`, and the accumulated
table rows. -/
structure RunState where
  mod : List Nat
  cur : Nat
  rows : List HookRecord
deriving Repr, DecidableEq

/-- Target list of one spec: an explicit address list becomes one target per
entry, otherwise a single addressless target that resolves through the AOB
pattern. -/
def targetsOf (s : HookSpec) : List (Option (Option Nat)) :=
  match s.addr with
  | some l => l.map some
  | none => [none]

/-- Site resolution for one target, from the ORIGINAL image `buf`: an
explicit address entry is used as-is (a failed parse yields no site), an
addressless target is resolved by scanning `buf` for the AOB pattern. -/
def resolveTarget (buf : List Nat) (aob : Option (List (Option Nat × Option Nat))) :
    Option (Option Nat) → Option Nat
  | some pv => pv
  | none =>
    match aob with
    | some toks => scan buf (aob_to_pat_mask toks).1 (aob_to_pat_mask toks).2
    | none => none

/-- Guard snapshot of make_inline.py: when a guard pattern is present, its
length and the bytes actually found at the site in the ORIGINAL image; note
the script never compares the guard against those bytes. -/
def guardSnap (buf : List Nat) (g : Option (List (Option Nat × Option Nat)))
    (site : Nat) : Nat × List Nat :=
  match g with
  | some gt =>
    ((aob_to_pat_mask gt).1.length, (buf.drop site).take (aob_to_pat_mask gt).1.length)
  | none => (0, [])

/-- Body of the per-target loop of make_inline.py `main`: resolve the site
(skipping silently on failure), snapshot the guard from the original image,
steal `STOLEN_SIZE` bytes FROM THE MUTABLE BUFFER, write the trampoline
(stolen bytes plus an absolute jump back), optionally overwrite the site
with a detour, and append a table row.  `enc to_va origin_off` models
`asm_abs_jump_va`; the script aborts when an encoding is not 8 bytes. -/
def processTarget (buf : List Nat) (enc : Nat → Nat → List Nat) (ps : Bool)
    (s : HookSpec) (st : RunState) (t : Option (Option Nat)) : Except PipeErr RunState :=
  match resolveTarget buf s.aob t with
  | none => .ok st
  | some site =>
    let g := guardSnap buf s.guard site
    let stolen := (st.mod.drop site).take STOLEN_SIZE
    let tramp_off := st.cur
    let jmp := enc (CODE_BASE + (site + STOLEN_SIZE)) (tramp_off + stolen.length)
    if jmp.length ≠ 8 then .error (.encSize jmp.length)
    else
      let tramp := stolen ++ jmp
      let mod1 := writeBytes st.mod tramp_off tramp
      let cur1 := st.cur + per_tramp
      if ps then
        let detour := enc (CODE_BASE + tramp_off) site
        if detour.length ≠ 8 then .error (.encSize detour.length)
        else .ok ⟨writeBytes mod1 site detour, cur1,
                  st.rows ++ [⟨s.name, site, tramp_off, g.2, g.1⟩]⟩
      else .ok ⟨mod1, cur1, st.rows ++ [⟨s.name, site, tramp_off, g.2, g.1⟩]⟩

/-- Iterate `processTarget` over the target list of one spec. -/
def runTargets (buf : List Nat) (enc : Nat → Nat → List Nat) (ps : Bool)
    (s : HookSpec) : RunState → List (Option (Option Nat)) → Except PipeErr RunState
  | st, [] => .ok st
  | st, t :: ts =>
    match processTarget buf enc ps s st t with
    | .error e => .error e
    | .ok st1 => runTargets buf enc ps s st1 ts

/-- Process all targets of one hook spec. -/
def processSpec (buf : List Nat) (enc : Nat → Nat → List Nat) (ps : Bool)
    (st : RunState) (s : HookSpec) : Except PipeErr RunState :=
  runTargets buf enc ps s st (targetsOf s)

/-- The hook loop of make_inline.py `main` over all specs in order. -/
def runHooks (buf : List Nat) (enc : Nat → Nat → List Nat) (ps : Bool) :
    RunState → List HookSpec → Except PipeErr RunState
  | st, [] => .ok st
  | st, s :: ss =>
    match processSpec buf enc ps st s with
    | .error e => .error e
    | .ok st1 => runHooks buf enc ps st1 ss

/-- Per-spec site count of make_inline.py `main`: the length of an explicit
address list, else one when an AOB pattern is present, else zero. -/
def siteCount (s : HookSpec) : Nat :=
  match s.addr with
  | some l => l.length
  | none => if s.aob.isSome then 1 else 0

/-- Total declared site count over all hooks. -/
def num_sites (hooks : List HookSpec) : Nat :=
  hooks.foldl (fun acc s => acc + siteCount s) 0

/-- Cave size requested by make_inline.py: one fixed slot per declared site,
at least one slot. -/
def arena_need (hooks : List HookSpec) : Nat :=
  per_tramp * max 1 (num_sites hooks)

/-- Arena allocation of make_inline.py `main`: use the located cave, else
append a zero-filled region of exactly the required size to the image and
use its offset. -/
def allocate (mod : List Nat) (need : Nat) : List Nat × Nat :=
  match find_code_cave mod need with
  | some i => (mod, i)
  | none => (mod ++ List.replicate need 0, mod.length)

/-- Whole make_inline.py run over an already validated image: size and place
the arena, then process every hook, returning the final mutable buffer and
the accumulated table rows. -/
def run (buf : List Nat) (enc : Nat → Nat → List Nat) (ps : Bool)
    (hooks : List HookSpec) : Except PipeErr (List Nat × List HookRecord) :=
  let a := allocate buf (arena_need hooks)
  match runHooks buf enc ps ⟨a.1, a.2, []⟩ hooks with
  | .error e => .error e
  | .ok st => .ok (st.mod, st.rows)

/-- One entry of the emitted `kHooks` array. -/
structure HookEntry where
  name : String
  site_off : Nat
  tramp_off : Nat
  guard : List Nat
  guard_len : Nat
deriving Repr, DecidableEq

/-- Guard padding of the emitter: first eight guard bytes, zero-padded to
exactly eight. -/
def padGuard (g : List Nat) : List Nat :=
  g.take 8 ++ List.replicate (8 - (g.take 8).length) 0

/-- Name deduplication of the emitter: fold over the hook names, appending a
name only when it has not been seen before. -/
def unique_names (ids : List String) : List String :=
  ids.foldl (fun acc n => if n ∈ acc then acc else acc ++ [n]) []

/-- The emitted hook table: the deduplicated enum names, `kNumHooks` (the
total row count, NOT deduplicated), and the `kHooks` array with one entry
per row in order. -/
def emit_table (rows : List HookRecord) : List String × Nat × List HookEntry :=
  (unique_names (rows.map (fun r => r.name)), rows.length,
   rows.map (fun r => ⟨r.name, r.site_off, r.tramp_off, padGuard r.guard, r.guard_len⟩))

/-- Accepted (site, guard length, guard bytes) triples of one spec, computed
purely from the ORIGINAL image: this is the data the run records for the
spec, independent of the mutable buffer. -/
def resolvedOf (buf : List Nat) (s : HookSpec) : List (Nat × Nat × List Nat) :=
  (targetsOf s).filterMap fun t =>
    (resolveTarget buf s.aob t).map fun site =>
      (site, (guardSnap buf s.guard site).1, (guardSnap buf s.guard site).2)

end MakeInline

namespace MakeBps

/-- Fixed per-trampoline slot size of make_bps.py. -/
def arena_need_each : Nat := 0x40

/-- 16-bit Thumb NOP bytes. -/
def NOP16 : List Nat := [0x00, 0xBF]

/-- `aob_to_bytes_mask` of make_bps.py: a token is either the full-byte
wildcard `??` (`none`) or a fixed byte value; mask bytes are 0x00 or 0xFF. -/
def aob_to_bytes_mask (toks : List (Option Nat)) : List Nat × List Nat :=
  (toks.map (fun t => t.getD 0),
   toks.map (fun t => match t with | some _ => 0xFF | none => 0x00))

/-- Inner comparison loop of `scan_aob` in make_bps.py: a position passes
when the mask byte is zero or the candidate byte equals the pattern byte
(unmasked equality, unlike make_inline.py). -/
def windowOk : List Nat → List Nat → List Nat → Bool
  | a :: w, b :: p, m :: mk =>
    (decide (m = 0) || decide (a = b)) && windowOk w p mk
  | _, _, _ => true

/-- Linear scan of `scan_aob` in make_bps.py, same shape as make_inline. -/
def scanGo (pat msk : List Nat) : List Nat → Option Nat
  | [] => if pat.length = 0 then some 0 else none
  | b :: rest =>
    if (b :: rest).length < pat.length then none
    else if windowOk ((b :: rest).take pat.length) pat msk then some 0
    else (scanGo pat msk rest).map (fun x => x + 1)

/-- `scan_aob` of make_bps.py. -/
def scan_aob (buf pat msk : List Nat) : Option Nat := scanGo pat msk buf

/-- Backward chunk scan of `find_code_cave` in make_bps.py: test whether the
`need`-byte chunk at the current index is all filler, walking from the given
start index down to zero. -/
def fcbGo (buf : List Nat) (need : Nat) : Nat → Option Nat
  | 0 => if ((buf.drop 0).take need).all isFiller then some 0 else none
  | i + 1 =>
    if ((buf.drop (i + 1)).take need).all isFiller then some (i + 1)
    else fcbGo buf need i

/-- `find_code_cave` of make_bps.py with `prefer_from=None`: start from
`len - need` and scan downward; fail when the image is shorter than the
requirement or no all-filler chunk exists. -/
def find_code_cave (buf : List Nat) (need : Nat) : Option Nat :=
  if need ≤ buf.length then fcbGo buf need (buf.length - need) else none

/-- A hook specification of make_bps.py: one optional explicit address, an
optional AOB pattern, an optional guard pattern. -/
structure HookSpec where
  name : String
  addr : Option Nat
  aob : Option (List (Option Nat))
  guard : Option (List (Option Nat))
deriving Repr, DecidableEq

/-- One entry of `hook_records` in make_bps.py. -/
structure HookRecord where
  name : String
  site_off : Nat
  tramp_off : Nat
  resume_off : Nat
  stolen_len : Nat
deriving Repr, DecidableEq

/-- State threaded through the hook loop of make_bps.py. -/
structure RunState where
  mod : List Nat
  cur : Nat
  records : List HookRecord
deriving Repr, DecidableEq

/-- Site resolution of make_bps.py: explicit address if present, else AOB
scan over the ORIGINAL image, else no site. -/
def siteOf (buf : List Nat) (s : HookSpec) : Option Nat :=
  match s.addr with
  | some a => some a
  | none =>
    match s.aob with
    | some toks => scan_aob buf (aob_to_bytes_mask toks).1 (aob_to_bytes_mask toks).2
    | none => none

/-- Guard check of make_bps.py, performed against the ORIGINAL image: the
masked comparison of the guard pattern against the bytes at the site
(truncating like `zip` when the image ends early). -/
def guardPass (buf : List Nat) (s : HookSpec) (site : Nat) : Bool :=
  match s.guard with
  | some g =>
    windowOk ((buf.drop site).take (aob_to_bytes_mask g).1.length)
      (aob_to_bytes_mask g).1 (aob_to_bytes_mask g).2
  | none => true

/-- Body of the per-hook loop of make_bps.py `main`: resolve, guard-check
(non-fatal skip on mismatch), steal ten bytes FROM THE MUTABLE BUFFER, build
the trampoline (stolen bytes, alignment NOPs, a wide branch back encoded by
the external `encBW`), write it, then overwrite the site with the 10-byte
placeholder detour produced by the external `encDetour` (fatal when its
length is not 10), and append a record. -/
def processHook (buf : List Nat) (encBW : Int → Nat → List Nat)
    (encDetour : Nat → Nat → List Nat) (st : RunState) (s : HookSpec) :
    Except PipeErr RunState :=
  match siteOf buf s with
  | none => .ok st
  | some site =>
    if guardPass buf s site then
      let stolen := (st.mod.drop site).take 10
      let tramp_off := st.cur
      let resume := site + 10
      let t2 := if stolen.length % 2 = 1 then stolen ++ NOP16 else stolen
      let t3 := if t2.length % 4 ≠ 0 then t2 ++ NOP16 else t2
      let tramp := t3 ++ encBW ((resume : Int) - ((tramp_off : Int) + t3.length + 4)) tramp_off
      let mod1 := writeBytes st.mod tramp_off tramp
      let detour := encDetour 0 0
      if detour.length ≠ 10 then .error (.encSize detour.length)
      else .ok ⟨writeBytes mod1 site detour, st.cur + arena_need_each,
                st.records ++ [⟨s.name, site, tramp_off, resume, 10⟩]⟩
    else .ok st

/-- The hook loop of make_bps.py `main` over all specs in order. -/
def runHooks (buf : List Nat) (encBW : Int → Nat → List Nat)
    (encDetour : Nat → Nat → List Nat) :
    RunState → List HookSpec → Except PipeErr RunState
  | st, [] => .ok st
  | st, s :: ss =>
    match processHook buf encBW encDetour st s with
    | .error e => .error e
    | .ok st1 => runHooks buf encBW encDetour st1 ss

/-- Cave size requested by make_bps.py: one fixed slot per hook entry, at
least one slot. -/
def arena_total (hooks : List HookSpec) : Nat :=
  arena_need_each * max 1 hooks.length

/-- Tail of make_bps.py `main`: write the mutated image, have the external
diff engine create the BPS artifact (which lands on disk), reapply it for
verification, and only then compare — a mismatch is fatal but the artifact
file has already been written; on success the artifact is also staged into
the dist tree.  The returned list records every file write in order. -/
def finish (base modBytes : List Nat)
    (createBps applyBps : List Nat → List Nat → List Nat) :
    List (String × List Nat) × Except PipeErr Unit :=
  let bps := createBps base modBytes
  let verify := applyBps base bps
  let w := [("build/code_mod.bin", modBytes), ("patch/code.bps", bps),
            ("build/code_mod_verify.bin", verify)]
  if verify = modBytes then (w ++ [("dist/exefs/code.bps", bps)], .ok ())
  else (w, .error .roundtrip)

/-- Whole make_bps.py run over an already validated image: locate the cave
(fatal `caveExhausted` when none exists — make_bps has NO growth fallback),
process every hook, then generate and verify the patch artifact. -/
def run (buf : List Nat) (encBW : Int → Nat → List Nat)
    (encDetour : Nat → Nat → List Nat) (hooks : List HookSpec)
    (createBps applyBps : List Nat → List Nat → List Nat) :
    List (String × List Nat) × Except PipeErr Unit :=
  match find_code_cave buf (arena_total hooks) with
  | none => ([], .error .caveExhausted)
  | some arena_off =>
    match runHooks buf encBW encDetour ⟨buf, arena_off, []⟩ hooks with
    | .error e => ([], .error e)
    | .ok st => finish buf st.mod createBps applyBps

/-- Accepted site of one make_bps hook spec, computed purely from the
ORIGINAL image: the resolved site when it exists and passes the guard. -/
def acceptedSite (buf : List Nat) (s : HookSpec) : Option Nat :=
  match siteOf buf s with
  | none => none
  | some site => if guardPass buf s site then some site else none

end MakeBps

/-- Specification-side statement of a pattern match at offset `i`: the whole
pattern window lies inside the buffer and at every pattern position the
masked candidate byte equals the masked pattern byte. -/
def maskedMatch (buf pat msk : List Nat) (i : Nat) : Prop :=
  i + pat.length ≤ buf.length ∧
  ∀ k, k < pat.length → ∀ b p m,
    buf[i + k]? = some b → pat[k]? = some p → msk[k]? = some m →
    b &&& m = p &&& m

/-- Specification-side byte-for-byte substring search: first offset at which
the pattern occurs verbatim. -/
def substringSearch (pat : List Nat) : List Nat → Option Nat
  | [] => if pat.length = 0 then some 0 else none
  | b :: rest =>
    if (b :: rest).length < pat.length then none
    else if (b :: rest).take pat.length = pat then some 0
    else (substringSearch pat rest).map (fun x => x + 1)

/-- Specification-side first-seen deduplication: keep each name's first
occurrence, dropping all later repeats. -/
def firstSeenDedup : List String → List String
  | [] => []
  | n :: rest => n :: firstSeenDedup (rest.filter (fun x => x ≠ n))
termination_by l => l.length
decreasing_by
  simp only [List.length_cons]
  exact Nat.lt_succ_of_le (List.length_filter_le _ _)

/-- A make_inline pattern token accepts byte `b` exactly when the script's
masked comparison passes on the singleton window. -/
def tokenMatches (b : Nat) (hi lo : Option Nat) : Prop :=
  MakeInline.windowOk [b] [(MakeInline.parse_token hi lo).1]
    [(MakeInline.parse_token hi lo).2] = true

/-- A make_bps pattern token accepts byte `b` exactly when the script's
comparison passes on the singleton window. -/
def bpsTokenMatches (b : Nat) (t : Option Nat) : Prop :=
  MakeBps.windowOk [b] (MakeBps.aob_to_bytes_mask [t]).1
    (MakeBps.aob_to_bytes_mask [t]).2 = true

/-- The scan loop of make_inline accepts offset `l`: the whole window fits
in the buffer and the window comparison passes. -/
def scanHit (pat msk buf : List Nat) (l : Nat) : Prop :=
  l + pat.length ≤ buf.length ∧
  MakeInline.windowOk ((buf.drop l).take pat.length) pat msk = true

/-! ## Arithmetic helper lemmas for nibble masks -/

lemma land_255_of_lt : ∀ a, a < 256 → a &&& 255 = a := by decide

lemma land_240_of_lt : ∀ b, b < 256 → b &&& 240 = 16 * (b / 16) := by decide

lemma land_15_of_lt : ∀ b, b < 256 → b &&& 15 = b % 16 := by decide

lemma shift_nibble_land : ∀ a, a < 16 → (a <<< 4) &&& 240 = 16 * a := by decide

lemma shift_nibble_land_15 : ∀ a, a < 16 → a &&& 15 = a := by decide

lemma parse_token_full : ∀ h, h < 16 → ∀ l, l < 16 →
    MakeInline.parse_token (some h) (some l) = (16 * h + l, 255) := by decide

/-- Claim C7: pattern tokens wildcard either nibble independently.  A full
wildcard token matches every byte; a token fixing only the high nibble to
`a` matches exactly the bytes `16*a .. 16*a+15`; a token fixing only the
low nibble to `a` matches exactly the bytes whose low nibble is `a`; a
fully fixed token matches exactly one byte.  The make_bps tokenizer,
supporting only full wildcards and fully fixed bytes, agrees on those two
classes. -/
theorem token_wildcard_semantics :
    (∀ b, tokenMatches b none none) ∧
    (∀ a, a < 16 → ∀ b, b < 256 →
       (tokenMatches b (some a) none ↔ 16 * a ≤ b ∧ b ≤ 16 * a + 15)) ∧
    (∀ a, a < 16 → ∀ b, b < 256 →
       (tokenMatches b none (some a) ↔ b % 16 = a)) ∧
    (∀ h l, h < 16 → l < 16 → ∀ b, b < 256 →
       (tokenMatches b (some h) (some l) ↔ b = 16 * h + l)) ∧
    (∀ b, bpsTokenMatches b none) ∧
    (∀ v b, bpsTokenMatches b (some v) ↔ b = v) := by
  refine ⟨?_, ?_, ?_, ?_, ?_, ?_⟩
  · intro b
    simp [tokenMatches, MakeInline.parse_token, MakeInline.windowOk]
  · intro a ha b hb
    have h1 : b &&& 240 = 16 * (b / 16) := land_240_of_lt b hb
    have h2 : (a <<< 4) &&& 240 = 16 * a := shift_nibble_land a ha
    simp only [tokenMatches, MakeInline.parse_token, MakeInline.windowOk,
      Bool.and_true, Bool.or_eq_true, decide_eq_true_eq]
    rw [h1, h2]
    omega
  · intro a ha b hb
    have h1 : b &&& 15 = b % 16 := land_15_of_lt b hb
    have h2 : a &&& 15 = a := shift_nibble_land_15 a ha
    simp only [tokenMatches, MakeInline.parse_token, MakeInline.windowOk,
      Bool.and_true, Bool.or_eq_true, decide_eq_true_eq]
    rw [h1, h2]
    omega
  · intro h l hh hl b hb
    have hp := parse_token_full h hh l hl
    have hb' : b &&& 255 = b := land_255_of_lt b hb
    have hv : 16 * h + l < 256 := by omega
    have hv' : (16 * h + l) &&& 255 = 16 * h + l := land_255_of_lt _ hv
    simp only [tokenMatches, hp, MakeInline.windowOk, Bool.and_true,
      Bool.or_eq_true, decide_eq_true_eq]
    rw [hb', hv']
    omega
  · intro b
    simp [bpsTokenMatches, MakeBps.aob_to_bytes_mask, MakeBps.windowOk]
  · intro v b
    simp [bpsTokenMatches, MakeBps.aob_to_bytes_mask, MakeBps.windowOk]

/-- Witness for claim C7 at a concrete input: byte 0xA5 is matched by the
token fixing only the high nibble to 0xA. -/
theorem token_wildcard_semantics_witness :
    tokenMatches 165 (some 10) none ↔ 160 ≤ 165 ∧ 165 ≤ 175 :=
  token_wildcard_semantics.2.1 10 (by decide) 165 (by decide)

/-! ## Claim C2: patch verification failure -/

/-- Amended claim C2: when the external diff engine's reconstruction does
not match the mutated image, the run fails fatally with the round-trip
error, but the mutated image and the patch artifact files have ALREADY been
written before the verification step; only the final staging copy into the
dist tree is skipped. -/
theorem verification_failure_keeps_written_artifacts :
    ∀ (base modB : List Nat) (createBps applyBps : List Nat → List Nat → List Nat),
      applyBps base (createBps base modB) ≠ modB →
      MakeBps.finish base modB createBps applyBps =
        ([("build/code_mod.bin", modB), ("patch/code.bps", createBps base modB),
          ("build/code_mod_verify.bin", applyBps base (createBps base modB))],
         .error .roundtrip) := by
  intro base modB c a h
  simp [MakeBps.finish, h]

/-- Witness for the amended claim C2 at a concrete input. -/
theorem verification_failure_keeps_written_artifacts_witness :
    MakeBps.finish [1] [1] (fun _ _ => [9]) (fun _ _ => []) =
      ([("build/code_mod.bin", [1]), ("patch/code.bps", [9]),
        ("build/code_mod_verify.bin", [])],
       .error .roundtrip) :=
  verification_failure_keeps_written_artifacts [1] [1]
    (fun _ _ => [9]) (fun _ _ => []) (by decide)

/-- Counterexample to claim C2 as stated: a full make_bps run whose diff
engine fails the round-trip does abort, but the patch artifact file HAS
been written (it is in the run's write log), contradicting the claim that
no artifact files are written. -/
theorem verification_no_artifact_counterexample :
    (MakeBps.run (List.replicate 64 0) (fun _ _ => []) (fun _ _ => List.replicate 10 0)
        [] (fun _ _ => [9]) (fun _ _ => [])).2 = .error .roundtrip ∧
    ("patch/code.bps", [9]) ∈
      (MakeBps.run (List.replicate 64 0) (fun _ _ => []) (fun _ _ => List.replicate 10 0)
        [] (fun _ _ => [9]) (fun _ _ => [])).1 := by
  refine ⟨rfl, ?_⟩
  decide

/-! ## Claim C3: guard mismatch handling -/

/-- Amended claim C3: in make_bps a guard mismatch at the resolved site
skips the hook non-fatally, producing no record and leaving the state
untouched; in make_inline the guard is NEVER compared — any resolved target
is accepted and recorded (with the bytes found at the site captured as a
snapshot) regardless of whether the guard pattern matches. -/
theorem guard_mismatch_handling :
    (∀ (buf : List Nat) (eBW : Int → Nat → List Nat) (eD : Nat → Nat → List Nat)
       (st : MakeBps.RunState) (s : MakeBps.HookSpec) (site : Nat),
       MakeBps.siteOf buf s = some site →
       MakeBps.guardPass buf s site = false →
       MakeBps.processHook buf eBW eD st s = .ok st) ∧
    (∀ (buf : List Nat) (enc : Nat → Nat → List Nat) (s : MakeInline.HookSpec)
       (st : MakeInline.RunState) (t : Option (Option Nat)) (site : Nat),
       MakeInline.resolveTarget buf s.aob t = some site →
       (∀ v o, (enc v o).length = 8) →
       ∃ st' : MakeInline.RunState,
         MakeInline.processTarget buf enc false s st t = .ok st' ∧
         st'.rows = st.rows ++ [⟨s.name, site, st.cur,
           (MakeInline.guardSnap buf s.guard site).2,
           (MakeInline.guardSnap buf s.guard site).1⟩]) := by
  constructor
  · intro buf eBW eD st s site h1 h2
    simp [MakeBps.processHook, h1, h2]
  · intro buf enc s st t site hres henc
    simp only [MakeInline.processTarget, hres, henc, ne_eq, not_true_eq_false,
      reduceIte, Bool.false_eq_true, if_false, Except.ok.injEq]
    exact ⟨_, rfl, rfl⟩

/-- Witness for the amended claim C3: a make_bps hook whose guard pattern
0x12 does not match the byte 7 at its explicit site is skipped, and the
same configuration in make_inline is accepted and recorded anyway. -/
theorem guard_mismatch_handling_witness :
    MakeBps.processHook [7, 7] (fun _ _ => []) (fun _ _ => List.replicate 10 0)
      ⟨[7, 7], 0, []⟩ ⟨"g", some 0, none, some [some 18]⟩ = .ok ⟨[7, 7], 0, []⟩ ∧
    ∃ st' : MakeInline.RunState,
      MakeInline.processTarget [7, 7] (fun _ _ => List.replicate 8 9) false
        ⟨"g", some [some 0], none, some [(some 1, some 2)]⟩ ⟨[7, 7], 0, []⟩ (some (some 0))
        = .ok st' ∧
      st'.rows = [] ++ [⟨"g", 0, 0,
        (MakeInline.guardSnap [7, 7] (some [(some 1, some 2)]) 0).2,
        (MakeInline.guardSnap [7, 7] (some [(some 1, some 2)]) 0).1⟩] :=
  ⟨guard_mismatch_handling.1 [7, 7] (fun _ _ => []) (fun _ _ => List.replicate 10 0)
      ⟨[7, 7], 0, []⟩ ⟨"g", some 0, none, some [some 18]⟩ 0 rfl rfl,
   guard_mismatch_handling.2 [7, 7] (fun _ _ => List.replicate 8 9)
      ⟨"g", some [some 0], none, some [(some 1, some 2)]⟩ ⟨[7, 7], 0, []⟩
      (some (some 0)) 0 rfl (fun _ _ => rfl)⟩

/-- Counterexample to claim C3 as stated: in make_inline a hook instance
whose guard pattern (0x12) fails the masked comparison against the byte
actually at the resolved offset (7) still produces a Site, a trampoline and
a HookRecord. -/
theorem guard_mismatch_skip_counterexample :
    (Except.map (fun p => p.2)
       (MakeInline.run (List.replicate 16 7) (fun _ _ => List.replicate 8 9) false
         [⟨"g", some [some 0], none, some [(some 1, some 2)]⟩]))
      = .ok [⟨"g", 0, 16, [7], 1⟩] ∧
    MakeInline.aob_to_pat_mask [(some 1, some 2)] = ([18], [255]) ∧
    MakeInline.windowOk (((List.replicate 16 7).drop 0).take 1) [18] [255] = false := by
  exact ⟨rfl, rfl, rfl⟩

/-! ## Claim C4: overlapping stolen windows -/

/-- Counterexample to claim C4 as stated: two hooks with explicit addresses
0 and 4 have overlapping 8-byte stolen windows, yet the run accepts BOTH
sites and completes without any `OverlappingSite` abort. -/
theorem overlapping_sites_accepted_counterexample :
    (Except.map (fun p => p.2.map fun r => (r.site_off, r.tramp_off))
       (MakeInline.run (List.replicate 16 7) (fun _ _ => List.replicate 8 9) true
         [⟨"a", some [some 0], none, none⟩, ⟨"b", some [some 4], none, none⟩]))
      = .ok [(0, 16), (4, 112)] ∧
    (4 : Nat) < 0 + MakeInline.STOLEN_SIZE := by
  exact ⟨rfl, by decide⟩

/-! ## Claim C1: source of the stolen bytes -/

/-- Counterexample to claim C1 as stated: with two accepted sites at 0 and 4
(overlapping windows) and site patching enabled, the second site's stolen
bytes — the first 8 bytes of its trampoline at offset 112 — are [9,9,9,9,
7,7,7,7]: they contain the first hook's detour bytes (9) instead of the
original image content (all 7), because the script reads the stolen window
from the mutable buffer, not from the pre-mutation image. -/
theorem stolen_bytes_original_image_counterexample :
    (Except.map (fun p => (p.1.drop 112).take 8)
       (MakeInline.run (List.replicate 16 7) (fun _ _ => List.replicate 8 9) true
         [⟨"a", some [some 0], none, none⟩, ⟨"b", some [some 4], none, none⟩]))
      = .ok [9, 9, 9, 9, 7, 7, 7, 7] ∧
    (Except.map (fun p => p.2.map fun r => (r.site_off, r.tramp_off))
       (MakeInline.run (List.replicate 16 7) (fun _ _ => List.replicate 8 9) true
         [⟨"a", some [some 0], none, none⟩, ⟨"b", some [some 4], none, none⟩]))
      = .ok [(0, 16), (4, 112)] ∧
    ((List.replicate 16 7 : List Nat).drop 4).take 8 = [7, 7, 7, 7, 7, 7, 7, 7] ∧
    ([9, 9, 9, 9, 7, 7, 7, 7] : List Nat) ≠ [7, 7, 7, 7, 7, 7, 7, 7] := by
  exact ⟨rfl, rfl, rfl, by decide⟩

/-! ## Claim C5: cave allocation counterexample -/

/-- Counterexample to claim C5 as stated: on a one-byte non-filler image
with no filler run anywhere, the make_bps allocator does NOT append a
zero-filled region — the run aborts fatally with `caveExhausted` and no
file is written, contradicting the claim that the fallback never fails. -/
theorem cave_growth_fallback_counterexample :
    MakeBps.find_code_cave [1] (MakeBps.arena_total []) = none ∧
    MakeBps.run [1] (fun _ _ => []) (fun _ _ => []) [] (fun _ _ => []) (fun _ _ => [])
      = ([], .error .caveExhausted) := by
  exact ⟨rfl, rfl⟩

/-! ## Claim C4: no overlap detection -/

lemma processTarget_ok (buf : List Nat) (enc : Nat → Nat → List Nat) (ps : Bool)
    (s : MakeInline.HookSpec) (st : MakeInline.RunState) (t : Option (Option Nat))
    (henc : ∀ v o, (enc v o).length = 8) :
    ∃ st', MakeInline.processTarget buf enc ps s st t = .ok st' := by
  cases hres : MakeInline.resolveTarget buf s.aob t with
  | none => exact ⟨st, by simp [MakeInline.processTarget, hres]⟩
  | some site =>
    cases ps <;>
      simp only [MakeInline.processTarget, hres, henc, ne_eq, not_true_eq_false,
        Bool.false_eq_true, if_false, reduceIte] <;>
      exact ⟨_, rfl⟩

lemma runTargets_ok (buf : List Nat) (enc : Nat → Nat → List Nat) (ps : Bool)
    (s : MakeInline.HookSpec) (henc : ∀ v o, (enc v o).length = 8) :
    ∀ (ts : List (Option (Option Nat))) (st : MakeInline.RunState),
      ∃ st', MakeInline.runTargets buf enc ps s st ts = .ok st' := by
  intro ts
  induction ts with
  | nil => exact fun st => ⟨st, rfl⟩
  | cons t ts ih =>
    intro st
    obtain ⟨st1, h1⟩ := processTarget_ok buf enc ps s st t henc
    obtain ⟨st2, h2⟩ := ih st1
    exact ⟨st2, by simp [MakeInline.runTargets, h1, h2]⟩

lemma runHooks_ok (buf : List Nat) (enc : Nat → Nat → List Nat) (ps : Bool)
    (henc : ∀ v o, (enc v o).length = 8) :
    ∀ (specs : List MakeInline.HookSpec) (st : MakeInline.RunState),
      ∃ st', MakeInline.runHooks buf enc ps st specs = .ok st' := by
  intro specs
  induction specs with
  | nil => exact fun st => ⟨st, rfl⟩
  | cons s ss ih =>
    intro st
    obtain ⟨st1, h1⟩ := runTargets_ok buf enc ps s henc (MakeInline.targetsOf s) st
    obtain ⟨st2, h2⟩ := ih st1
    exact ⟨st2, by simp [MakeInline.runHooks, MakeInline.processSpec, h1, h2]⟩

lemma processHook_ok (buf : List Nat) (eBW : Int → Nat → List Nat)
    (eD : Nat → Nat → List Nat) (st : MakeBps.RunState) (s : MakeBps.HookSpec)
    (hD : ∀ a b, (eD a b).length = 10) :
    ∃ st', MakeBps.processHook buf eBW eD st s = .ok st' := by
  cases hres : MakeBps.siteOf buf s with
  | none => exact ⟨st, by simp [MakeBps.processHook, hres]⟩
  | some site =>
    cases hg : MakeBps.guardPass buf s site <;>
      simp only [MakeBps.processHook, hres, hg, hD, ne_eq, not_true_eq_false,
        Bool.false_eq_true, if_false, reduceIte] <;>
      exact ⟨_, rfl⟩

lemma runHooksBps_ok (buf : List Nat) (eBW : Int → Nat → List Nat)
    (eD : Nat → Nat → List Nat) (hD : ∀ a b, (eD a b).length = 10) :
    ∀ (specs : List MakeBps.HookSpec) (st : MakeBps.RunState),
      ∃ st', MakeBps.runHooks buf eBW eD st specs = .ok st' := by
  intro specs
  induction specs with
  | nil => exact fun st => ⟨st, rfl⟩
  | cons s ss ih =>
    intro st
    obtain ⟨st1, h1⟩ := processHook_ok buf eBW eD st s hD
    obtain ⟨st2, h2⟩ := ih st1
    exact ⟨st2, by simp [MakeBps.runHooks, h1, h2]⟩

/-- Amended claim C4: neither pipeline performs any overlap detection.  With
size-correct external encoders the hook loop ALWAYS completes successfully,
for every input — in particular a Site whose stolen window overlaps a
previously claimed Site's window is accepted like any other (see the
counterexample), and no `OverlappingSite` abort exists. -/
theorem no_overlap_check_run_completes :
    (∀ (buf : List Nat) (enc : Nat → Nat → List Nat) (ps : Bool)
       (st : MakeInline.RunState) (specs : List MakeInline.HookSpec),
       (∀ v o, (enc v o).length = 8) →
       ∃ st', MakeInline.runHooks buf enc ps st specs = .ok st') ∧
    (∀ (buf : List Nat) (eBW : Int → Nat → List Nat) (eD : Nat → Nat → List Nat)
       (st : MakeBps.RunState) (specs : List MakeBps.HookSpec),
       (∀ a b, (eD a b).length = 10) →
       ∃ st', MakeBps.runHooks buf eBW eD st specs = .ok st') :=
  ⟨fun buf enc ps st specs henc => runHooks_ok buf enc ps henc specs st,
   fun buf eBW eD st specs hD => runHooksBps_ok buf eBW eD hD specs st⟩

/-- Witness for the amended claim C4 at the overlapping concrete input of
the counterexample: the run completes successfully. -/
theorem no_overlap_check_run_completes_witness :
    ∃ st', MakeInline.runHooks (List.replicate 16 7) (fun _ _ => List.replicate 8 9) true
      ⟨List.replicate 16 7 ++ List.replicate 192 0, 16, []⟩
      [⟨"a", some [some 0], none, none⟩, ⟨"b", some [some 4], none, none⟩] = .ok st' :=
  no_overlap_check_run_completes.1 (List.replicate 16 7) (fun _ _ => List.replicate 8 9)
    true ⟨List.replicate 16 7 ++ List.replicate 192 0, 16, []⟩
    [⟨"a", some [some 0], none, none⟩, ⟨"b", some [some 4], none, none⟩]
    (fun _ _ => rfl)

/-! ## Claim C10: arena sizing -/

lemma foldl_add_siteCount : ∀ (l : List MakeInline.HookSpec) (a : Nat),
    l.foldl (fun acc s => acc + MakeInline.siteCount s) a =
      a + l.foldl (fun acc s => acc + MakeInline.siteCount s) 0 := by
  intro l
  induction l with
  | nil => intro a; simp
  | cons s ss ih =>
    intro a
    simp only [List.foldl_cons]
    rw [ih (a + MakeInline.siteCount s), ih (0 + MakeInline.siteCount s)]
    omega

lemma num_sites_cons (s : MakeInline.HookSpec) (ss : List MakeInline.HookSpec) :
    MakeInline.num_sites (s :: ss) =
      MakeInline.siteCount s + MakeInline.num_sites ss := by
  simp only [MakeInline.num_sites, List.foldl_cons]
  rw [foldl_add_siteCount]
  omega

lemma processSpec_skip (buf : List Nat) (enc : Nat → Nat → List Nat) (ps : Bool)
    (st : MakeInline.RunState) (s : MakeInline.HookSpec)
    (h : MakeInline.siteCount s = 0) :
    MakeInline.processSpec buf enc ps st s = .ok st := by
  unfold MakeInline.processSpec MakeInline.targetsOf
  cases haddr : s.addr with
  | some l =>
    have hl : l = [] := List.length_eq_zero.mp (by simpa [MakeInline.siteCount, haddr] using h)
    subst hl
    simp [MakeInline.runTargets]
  | none =>
    have haob : s.aob = none := by
      simp only [MakeInline.siteCount, haddr] at h
      cases haob2 : s.aob with
      | none => rfl
      | some a => rw [haob2] at h; simp at h
    simp [MakeInline.runTargets, MakeInline.processTarget, MakeInline.resolveTarget, haob]

lemma runHooks_no_sites (buf : List Nat) (enc : Nat → Nat → List Nat) (ps : Bool) :
    ∀ (specs : List MakeInline.HookSpec) (st : MakeInline.RunState),
      MakeInline.num_sites specs = 0 →
      MakeInline.runHooks buf enc ps st specs = .ok st := by
  intro specs
  induction specs with
  | nil => intro st _; rfl
  | cons s ss ih =>
    intro st h
    have hcons := num_sites_cons s ss
    have h1 : MakeInline.siteCount s = 0 := by omega
    have h2 : MakeInline.num_sites ss = 0 := by omega
    simp [MakeInline.runHooks, processSpec_skip buf enc ps st s h1, ih st h2]

/-- Claim C10: the requested cave size is one fixed slot per declared hook
site, at least one slot, hence never zero — in make_bps one slot per hook
entry — and a make_inline run with zero declared sites on an image with no
cave still grows the output image by exactly one slot through arena
growth. -/
theorem arena_sizing_and_growth :
    (∀ hooks : List MakeInline.HookSpec, 0 < MakeInline.arena_need hooks ∧
       MakeInline.arena_need hooks =
         MakeInline.per_tramp * max 1 (MakeInline.num_sites hooks)) ∧
    (∀ hooks : List MakeBps.HookSpec, 0 < MakeBps.arena_total hooks ∧
       MakeBps.arena_total hooks = MakeBps.arena_need_each * max 1 hooks.length) ∧
    (∀ (buf : List Nat) (enc : Nat → Nat → List Nat) (ps : Bool)
       (hooks : List MakeInline.HookSpec),
       MakeInline.num_sites hooks = 0 →
       MakeInline.find_code_cave buf (MakeInline.arena_need hooks) = none →
       MakeInline.run buf enc ps hooks =
         .ok (buf ++ List.replicate MakeInline.per_tramp 0, []) ∧
       (buf ++ List.replicate MakeInline.per_tramp 0).length =
         buf.length + MakeInline.per_tramp) := by
  refine ⟨?_, ?_, ?_⟩
  · intro hooks
    constructor
    · simp only [MakeInline.arena_need, MakeInline.per_tramp]
      omega
    · rfl
  · intro hooks
    constructor
    · simp only [MakeBps.arena_total, MakeBps.arena_need_each]
      omega
    · rfl
  · intro buf enc ps hooks h0 hcave
    have hneed : MakeInline.arena_need hooks = MakeInline.per_tramp := by
      simp [MakeInline.arena_need, h0]
    have halloc : MakeInline.allocate buf (MakeInline.arena_need hooks) =
        (buf ++ List.replicate (MakeInline.arena_need hooks) 0, buf.length) := by
      simp [MakeInline.allocate, hcave]
    have hrun := runHooks_no_sites buf enc ps hooks
      ⟨buf ++ List.replicate (MakeInline.arena_need hooks) 0, buf.length, []⟩ h0
    rw [hneed] at halloc hrun
    constructor
    · simp [MakeInline.run, hneed, halloc, hrun]
    · simp [List.length_append]

/-- Witness for claim C10: a run with no hooks at all over the one-byte
image `[7]` (which contains no cave) grows the image by one slot. -/
theorem arena_sizing_and_growth_witness :
    MakeInline.run [7] (fun _ _ => List.replicate 8 9) false [] =
      .ok ([7] ++ List.replicate MakeInline.per_tramp 0, []) ∧
    ([7] ++ List.replicate MakeInline.per_tramp 0).length = [7].length + MakeInline.per_tramp :=
  arena_sizing_and_growth.2.2 [7] (fun _ _ => List.replicate 8 9) false [] rfl rfl

/-! ## Claim C8: hook table emission -/

lemma firstSeenDedup_mem : ∀ (l : List String) (s : String),
    s ∈ firstSeenDedup l ↔ s ∈ l := by
  intro l
  induction l using firstSeenDedup.induct with
  | case1 => intro s; simp [firstSeenDedup]
  | case2 n rest ih =>
    intro s
    rw [firstSeenDedup]
    by_cases hs : s = n
    · subst hs; simp
    · rw [List.mem_cons, List.mem_cons, ih s, List.mem_filter]
      simp [hs]

lemma firstSeenDedup_nodup : ∀ l : List String, (firstSeenDedup l).Nodup := by
  intro l
  induction l using firstSeenDedup.induct with
  | case1 => simp [firstSeenDedup]
  | case2 n rest ih =>
    rw [firstSeenDedup]
    simp only [List.nodup_cons]
    refine ⟨?_, ih⟩
    intro hmem
    rw [firstSeenDedup_mem] at hmem
    simp [List.mem_filter] at hmem

lemma foldl_dedup : ∀ (ids acc : List String),
    ids.foldl (fun a n => if n ∈ a then a else a ++ [n]) acc
      = acc ++ firstSeenDedup (ids.filter (fun x => x ∉ acc)) := by
  intro ids
  induction ids with
  | nil => intro acc; simp [firstSeenDedup]
  | cons n rest ih =>
    intro acc
    by_cases hn : n ∈ acc
    · simp only [List.foldl_cons, if_pos hn]
      rw [ih acc]
      have hf : (n :: rest).filter (fun x => decide (x ∉ acc)) =
          rest.filter (fun x => decide (x ∉ acc)) := by
        simp [List.filter_cons, hn]
      rw [hf]
    · simp only [List.foldl_cons, if_neg hn]
      rw [ih (acc ++ [n])]
      have hf : (n :: rest).filter (fun x => decide (x ∉ acc)) =
          n :: rest.filter (fun x => decide (x ∉ acc)) := by
        simp [List.filter_cons, hn]
      rw [hf, firstSeenDedup, List.append_assoc, List.singleton_append]
      have hpred : List.filter (fun x => decide (x ∉ acc ++ [n])) rest =
          List.filter (fun x => decide (x ≠ n))
            (List.filter (fun x => decide (x ∉ acc)) rest) := by
        rw [List.filter_filter]
        apply List.filter_congr
        intro x _
        by_cases h1 : x = n <;> by_cases h2 : x ∈ acc <;> simp [h1, h2]
      rw [hpred]

/-- Claim C8: the emitted hook table deduplicates the enum names in
first-seen order (the enum list equals the canonical first-seen
deduplication, is duplicate-free, and contains exactly the names that
occur), while the per-site entry list is NOT deduplicated: it has exactly
one entry per applied site, in application order, and the emitted total
count equals the number of applied sites. -/
theorem hook_table_emission (rows : List MakeInline.HookRecord) :
    (MakeInline.emit_table rows).2.1 = rows.length ∧
    (MakeInline.emit_table rows).2.2.length = rows.length ∧
    (MakeInline.emit_table rows).2.2.map
        (fun e => (e.name, e.site_off, e.tramp_off, e.guard_len)) =
      rows.map (fun r => (r.name, r.site_off, r.tramp_off, r.guard_len)) ∧
    (MakeInline.emit_table rows).1 = firstSeenDedup (rows.map (fun r => r.name)) ∧
    ((MakeInline.emit_table rows).1).Nodup ∧
    ∀ s, s ∈ (MakeInline.emit_table rows).1 ↔ s ∈ rows.map (fun r => r.name) := by
  have hu : MakeInline.unique_names (rows.map (fun r => r.name)) =
      firstSeenDedup (rows.map (fun r => r.name)) := by
    rw [MakeInline.unique_names, foldl_dedup]
    simp
  refine ⟨rfl, by simp [MakeInline.emit_table], ?_, ?_, ?_, ?_⟩
  · show (rows.map _).map _ = _
    rw [List.map_map]
    rfl
  · exact hu
  · show (MakeInline.unique_names (rows.map (fun r => r.name))).Nodup
    rw [hu]
    exact firstSeenDedup_nodup _
  · intro s
    show s ∈ MakeInline.unique_names (rows.map (fun r => r.name)) ↔ _
    rw [hu]
    exact firstSeenDedup_mem _ s

/-- Witness for claim C8 at a concrete input: two applied sites sharing the
name "a" yield a table whose count is 2 (rows are not deduplicated). -/
theorem hook_table_emission_witness :
    (MakeInline.emit_table [⟨"a", 0, 16, [7], 1⟩, ⟨"a", 4, 112, [], 0⟩]).2.1 = 2 :=
  (hook_table_emission [⟨"a", 0, 16, [7], 1⟩, ⟨"a", 4, 112, [], 0⟩]).1

/-! ## Claim C6: pattern resolution -/

lemma windowOk_iff : ∀ (w pat msk : List Nat), w.length = pat.length →
    msk.length = pat.length →
    (MakeInline.windowOk w pat msk = true ↔
      ∀ k, k < pat.length → ∀ b p m,
        w[k]? = some b → pat[k]? = some p → msk[k]? = some m →
        b &&& m = p &&& m) := by
  intro w
  induction w with
  | nil =>
    intro pat msk hw hm
    have hp : pat = [] := by
      cases pat with
      | nil => rfl
      | cons x xs => simp at hw
    subst hp
    simp [MakeInline.windowOk]
  | cons a w ih =>
    intro pat msk hw hm
    cases pat with
    | nil => simp at hw
    | cons p ps =>
      cases msk with
      | nil => simp at hm
      | cons m mk =>
        have hw' : w.length = ps.length := by simpa using hw
        have hm' : mk.length = ps.length := by simpa using hm
        rw [show MakeInline.windowOk (a :: w) (p :: ps) (m :: mk) =
          ((decide (m = 0) || decide (a &&& m = p &&& m)) &&
            MakeInline.windowOk w ps mk) from rfl]
        rw [Bool.and_eq_true, Bool.or_eq_true, decide_eq_true_eq, decide_eq_true_eq]
        rw [ih ps mk hw' hm']
        constructor
        · rintro ⟨h1, h2⟩ k hk b1 p1 m1 hb hp1 hmk
          cases k with
          | zero =>
            have hb' : b1 = a := by simpa using hb.symm
            have hp' : p1 = p := by simpa using hp1.symm
            have hm2 : m1 = m := by simpa using hmk.symm
            subst hb'
            subst hp'
            subst hm2
            rcases h1 with h0 | h0
            · subst h0
              simp [Nat.and_zero]
            · exact h0
          | succ k =>
            exact h2 k (by simpa using hk) b1 p1 m1 (by simpa using hb)
              (by simpa using hp1) (by simpa using hmk)
        · intro H
          constructor
          · by_cases hm0 : m = 0
            · exact Or.inl hm0
            · exact Or.inr (H 0 (by simp) a p m (by simp) (by simp) (by simp))
          · intro k hk b1 p1 m1 hb hp1 hmk
            exact H (k + 1) (by simp only [List.length_cons]; omega) b1 p1 m1
              (by simpa using hb) (by simpa using hp1) (by simpa using hmk)

lemma scanGo_spec (pat msk : List Nat) : ∀ buf : List Nat,
    (∀ i, MakeInline.scanGo pat msk buf = some i →
       scanHit pat msk buf i ∧ ∀ l, l < i → ¬ scanHit pat msk buf l) ∧
    (MakeInline.scanGo pat msk buf = none → ∀ l, ¬ scanHit pat msk buf l) := by
  intro buf
  induction buf with
  | nil =>
    constructor
    · intro i hi
      simp only [MakeInline.scanGo] at hi
      by_cases hp : pat.length = 0
      · rw [if_pos hp] at hi
        injection hi with hi
        subst hi
        refine ⟨⟨by simp [hp], ?_⟩, ?_⟩
        · rw [show ((([] : List Nat).drop 0).take pat.length) = [] by simp]
          rfl
        · intro l hl
          omega
      · rw [if_neg hp] at hi
        exact absurd hi (by simp)
    · intro hnone l hhit
      obtain ⟨hb, _⟩ := hhit
      simp only [MakeInline.scanGo] at hnone
      by_cases hp : pat.length = 0
      · rw [if_pos hp] at hnone
        exact absurd hnone (by simp)
      · simp only [List.length_nil] at hb
        omega
  | cons b rest ih =>
    constructor
    · intro i hi
      simp only [MakeInline.scanGo] at hi
      by_cases h1 : (b :: rest).length < pat.length
      · rw [if_pos h1] at hi
        exact absurd hi (by simp)
      · rw [if_neg h1] at hi
        by_cases h2 : MakeInline.windowOk ((b :: rest).take pat.length) pat msk = true
        · rw [if_pos h2] at hi
          injection hi with hi
          subst hi
          refine ⟨⟨by simp at h1 ⊢; omega, by simpa using h2⟩, ?_⟩
          intro l hl
          omega
        · rw [if_neg h2] at hi
          cases hr : MakeInline.scanGo pat msk rest with
          | none =>
            rw [hr] at hi
            exact absurd hi (by simp)
          | some j =>
            rw [hr] at hi
            have hi2 : i = j + 1 := by simpa using hi.symm
            subst hi2
            obtain ⟨⟨hjb, hjw⟩, hjmin⟩ := ih.1 j hr
            refine ⟨⟨?_, ?_⟩, ?_⟩
            · simp only [List.length_cons]
              omega
            · simpa [List.drop_succ_cons] using hjw
            · intro l hl
              cases l with
              | zero =>
                rintro ⟨hlb, hlw⟩
                exact h2 (by simpa using hlw)
              | succ l' =>
                rintro ⟨hlb, hlw⟩
                refine hjmin l' (by omega) ⟨?_, ?_⟩
                · simp only [List.length_cons] at hlb
                  omega
                · simpa [List.drop_succ_cons] using hlw
    · intro hnone l
      simp only [MakeInline.scanGo] at hnone
      by_cases h1 : (b :: rest).length < pat.length
      · rintro ⟨hb2, _⟩
        simp only [List.length_cons] at h1 hb2
        omega
      · rw [if_neg h1] at hnone
        by_cases h2 : MakeInline.windowOk ((b :: rest).take pat.length) pat msk = true
        · rw [if_pos h2] at hnone
          exact absurd hnone (by simp)
        · rw [if_neg h2] at hnone
          cases hr : MakeInline.scanGo pat msk rest with
          | some j =>
            rw [hr] at hnone
            exact absurd hnone (by simp)
          | none =>
            cases l with
            | zero =>
              rintro ⟨_, hlw⟩
              exact h2 (by simpa using hlw)
            | succ l' =>
              rintro ⟨hlb, hlw⟩
              refine ih.2 hr l' ⟨?_, ?_⟩
              · simp only [List.length_cons] at hlb
                omega
              · simpa [List.drop_succ_cons] using hlw

lemma scanHit_iff_maskedMatch (buf pat msk : List Nat)
    (hm : msk.length = pat.length) (l : Nat) :
    scanHit pat msk buf l ↔ maskedMatch buf pat msk l := by
  unfold scanHit maskedMatch
  constructor
  · rintro ⟨hb, hw⟩
    refine ⟨hb, ?_⟩
    have hwlen : ((buf.drop l).take pat.length).length = pat.length := by
      simp only [List.length_take, List.length_drop]
      omega
    have hall := (windowOk_iff _ pat msk hwlen hm).mp hw
    intro k hk b1 p1 m1 hb1 hp1 hm1
    refine hall k hk b1 p1 m1 ?_ hp1 hm1
    rw [List.getElem?_take_of_lt hk, List.getElem?_drop]
    exact hb1
  · rintro ⟨hb, hmm⟩
    refine ⟨hb, ?_⟩
    have hwlen : ((buf.drop l).take pat.length).length = pat.length := by
      simp only [List.length_take, List.length_drop]
      omega
    rw [windowOk_iff _ pat msk hwlen hm]
    intro k hk b1 p1 m1 hb1 hp1 hm1
    refine hmm k hk b1 p1 m1 ?_ hp1 hm1
    rw [List.getElem?_take_of_lt hk, List.getElem?_drop] at hb1
    exact hb1

lemma windowOk_fullmask : ∀ (pat w msk : List Nat),
    msk.length = pat.length → w.length = pat.length →
    (∀ m ∈ msk, m = 255) → (∀ x ∈ w, x < 256) → (∀ p ∈ pat, p < 256) →
    (MakeInline.windowOk w pat msk = true ↔ w = pat) := by
  intro pat
  induction pat with
  | nil =>
    intro w msk _ hw _ _ _
    have : w = [] := List.length_eq_zero.mp hw
    subst this
    simp [MakeInline.windowOk]
  | cons p ps ih =>
    intro w msk hm hw hmask hwb hpb
    cases w with
    | nil => simp at hw
    | cons a w' =>
      cases msk with
      | nil => simp at hm
      | cons m mk =>
        have hm255 : m = 255 := hmask m (by simp)
        subst hm255
        have ha : a &&& 255 = a := land_255_of_lt a (hwb a (by simp))
        have hp : p &&& 255 = p := land_255_of_lt p (hpb p (by simp))
        rw [show MakeInline.windowOk (a :: w') (p :: ps) (255 :: mk) =
          ((decide ((255 : Nat) = 0) || decide (a &&& 255 = p &&& 255)) &&
            MakeInline.windowOk w' ps mk) from rfl]
        rw [ha, hp]
        rw [Bool.and_eq_true, Bool.or_eq_true, decide_eq_true_eq, decide_eq_true_eq]
        rw [ih w' mk (by simpa using hm) (by simpa using hw)
          (fun x hx => hmask x (List.mem_cons_of_mem _ hx))
          (fun x hx => hwb x (List.mem_cons_of_mem _ hx))
          (fun x hx => hpb x (List.mem_cons_of_mem _ hx))]
        simp [List.cons.injEq]

lemma scanGo_fixed_eq_substring : ∀ (pat msk buf : List Nat),
    msk.length = pat.length → (∀ m ∈ msk, m = 255) →
    (∀ x ∈ buf, x < 256) → (∀ p ∈ pat, p < 256) →
    MakeInline.scanGo pat msk buf = substringSearch pat buf := by
  intro pat msk buf hm hmask
  induction buf with
  | nil => intro _ _; rfl
  | cons b rest ih =>
    intro hbuf hpat
    simp only [MakeInline.scanGo, substringSearch]
    by_cases h1 : (b :: rest).length < pat.length
    · rw [if_pos h1, if_pos h1]
    · rw [if_neg h1, if_neg h1]
      have hwlen : ((b :: rest).take pat.length).length = pat.length := by
        simp only [List.length_take]
        simp only [not_lt] at h1
        omega
      have hwin := windowOk_fullmask pat ((b :: rest).take pat.length) msk hm hwlen
        hmask (fun x hx => hbuf x (List.mem_of_mem_take hx)) hpat
      by_cases h2 : (b :: rest).take pat.length = pat
      · rw [if_pos (hwin.mpr h2), if_pos h2]
      · rw [if_neg (fun hc => h2 (hwin.mp hc)), if_neg h2]
        rw [ih (fun x hx => hbuf x (List.mem_cons_of_mem _ hx)) hpat]

lemma windowOk_bps_eq : ∀ (w pat msk : List Nat),
    (∀ m ∈ msk, m = 0 ∨ m = 255) → (∀ x ∈ w, x < 256) → (∀ p ∈ pat, p < 256) →
    MakeBps.windowOk w pat msk = MakeInline.windowOk w pat msk := by
  intro w
  induction w with
  | nil =>
    intro pat msk _ _ _
    rfl
  | cons a w' ih =>
    intro pat msk hmsk hwb hpb
    cases pat with
    | nil => rfl
    | cons p ps =>
      cases msk with
      | nil => rfl
      | cons m mk =>
        have hrec := ih ps mk (fun x hx => hmsk x (List.mem_cons_of_mem _ hx))
          (fun x hx => hwb x (List.mem_cons_of_mem _ hx))
          (fun x hx => hpb x (List.mem_cons_of_mem _ hx))
        show ((decide (m = 0) || decide (a = p)) && MakeBps.windowOk w' ps mk) =
          ((decide (m = 0) || decide (a &&& m = p &&& m)) && MakeInline.windowOk w' ps mk)
        rw [hrec]
        rcases hmsk m (by simp) with h0 | h255
        · subst h0
          simp [Nat.and_zero]
        · subst h255
          rw [land_255_of_lt a (hwb a (by simp)), land_255_of_lt p (hpb p (by simp))]

lemma scanGo_bps_eq : ∀ (pat msk buf : List Nat),
    (∀ m ∈ msk, m = 0 ∨ m = 255) → (∀ x ∈ buf, x < 256) → (∀ p ∈ pat, p < 256) →
    MakeBps.scanGo pat msk buf = MakeInline.scanGo pat msk buf := by
  intro pat msk buf hmsk
  induction buf with
  | nil => intro _ _; rfl
  | cons b rest ih =>
    intro hbuf hpat
    simp only [MakeBps.scanGo, MakeInline.scanGo]
    rw [windowOk_bps_eq ((b :: rest).take pat.length) pat msk hmsk
      (fun x hx => hbuf x (List.mem_of_mem_take hx)) hpat]
    rw [ih (fun x hx => hbuf x (List.mem_cons_of_mem _ hx)) hpat]

lemma aob_to_pat_mask_len (toks : List (Option Nat × Option Nat)) :
    (MakeInline.aob_to_pat_mask toks).2.length = (MakeInline.aob_to_pat_mask toks).1.length := by
  simp [MakeInline.aob_to_pat_mask]

/-- Claim C6: for every pattern-mode hook the resolver returns the LOWEST
offset at which every pattern position satisfies the masked comparison
`(candidate &&& mask) = (pattern &&& mask)` (and reports nothing when no
offset matches); for patterns of fixed bytes only, the scan coincides with
a byte-for-byte substring search; the make_bps scanner agrees with the
masked semantics on its byte-level patterns; and a failed scan skips the
hook non-fatally, the run continuing with the next hook, in both
pipelines. -/
theorem pattern_resolution_correct :
    (∀ (buf : List Nat) (toks : List (Option Nat × Option Nat)),
       (∀ i, MakeInline.scan buf (MakeInline.aob_to_pat_mask toks).1
           (MakeInline.aob_to_pat_mask toks).2 = some i →
         maskedMatch buf (MakeInline.aob_to_pat_mask toks).1
           (MakeInline.aob_to_pat_mask toks).2 i ∧
         ∀ l, l < i → ¬ maskedMatch buf (MakeInline.aob_to_pat_mask toks).1
           (MakeInline.aob_to_pat_mask toks).2 l) ∧
       (MakeInline.scan buf (MakeInline.aob_to_pat_mask toks).1
           (MakeInline.aob_to_pat_mask toks).2 = none →
         ∀ l, ¬ maskedMatch buf (MakeInline.aob_to_pat_mask toks).1
           (MakeInline.aob_to_pat_mask toks).2 l)) ∧
    (∀ (buf : List Nat) (toks : List (Option Nat × Option Nat)),
       (∀ t ∈ toks, ∃ hh ll, t = (some hh, some ll) ∧ hh < 16 ∧ ll < 16) →
       (∀ b ∈ buf, b < 256) →
       MakeInline.scan buf (MakeInline.aob_to_pat_mask toks).1
           (MakeInline.aob_to_pat_mask toks).2 =
         substringSearch (MakeInline.aob_to_pat_mask toks).1 buf) ∧
    (∀ (buf : List Nat) (toks : List (Option Nat)),
       (∀ t ∈ toks, ∀ v, t = some v → v < 256) →
       (∀ b ∈ buf, b < 256) →
       MakeBps.scan_aob buf (MakeBps.aob_to_bytes_mask toks).1
           (MakeBps.aob_to_bytes_mask toks).2 =
         MakeInline.scan buf (MakeBps.aob_to_bytes_mask toks).1
           (MakeBps.aob_to_bytes_mask toks).2) ∧
    (∀ (buf : List Nat) (enc : Nat → Nat → List Nat) (ps : Bool)
       (st : MakeInline.RunState) (nm : String)
       (g : Option (List (Option Nat × Option Nat)))
       (a : List (Option Nat × Option Nat)) (rest : List MakeInline.HookSpec),
       MakeInline.scan buf (MakeInline.aob_to_pat_mask a).1
           (MakeInline.aob_to_pat_mask a).2 = none →
       MakeInline.runHooks buf enc ps st (⟨nm, none, some a, g⟩ :: rest) =
         MakeInline.runHooks buf enc ps st rest) ∧
    (∀ (buf : List Nat) (eBW : Int → Nat → List Nat) (eD : Nat → Nat → List Nat)
       (st : MakeBps.RunState) (nm : String) (g : Option (List (Option Nat)))
       (a : List (Option Nat)) (rest : List MakeBps.HookSpec),
       MakeBps.scan_aob buf (MakeBps.aob_to_bytes_mask a).1
           (MakeBps.aob_to_bytes_mask a).2 = none →
       MakeBps.runHooks buf eBW eD st (⟨nm, none, some a, g⟩ :: rest) =
         MakeBps.runHooks buf eBW eD st rest) := by
  refine ⟨?_, ?_, ?_, ?_, ?_⟩
  · intro buf toks
    have hml := aob_to_pat_mask_len toks
    constructor
    · intro i hi
      obtain ⟨hhit, hmin⟩ := (scanGo_spec _ _ buf).1 i hi
      refine ⟨(scanHit_iff_maskedMatch buf _ _ hml i).mp hhit, ?_⟩
      intro l hl hmm
      exact hmin l hl ((scanHit_iff_maskedMatch buf _ _ hml l).mpr hmm)
    · intro hn l hmm
      exact (scanGo_spec _ _ buf).2 hn l
        ((scanHit_iff_maskedMatch buf _ _ hml l).mpr hmm)
  · intro buf toks hfix hbuf
    have hml := aob_to_pat_mask_len toks
    apply scanGo_fixed_eq_substring _ _ buf hml
    · intro m hmem
      rw [MakeInline.aob_to_pat_mask] at hmem
      simp only [List.mem_map] at hmem
      obtain ⟨t, ht, hmt⟩ := hmem
      obtain ⟨hh, ll, hteq, _, _⟩ := hfix t ht
      rw [hteq] at hmt
      simpa [MakeInline.parse_token] using hmt.symm
    · exact hbuf
    · intro p hmem
      rw [MakeInline.aob_to_pat_mask] at hmem
      simp only [List.mem_map] at hmem
      obtain ⟨t, ht, hmt⟩ := hmem
      obtain ⟨hh, ll, hteq, hhlt, hllt⟩ := hfix t ht
      rw [hteq] at hmt
      have := parse_token_full hh hhlt ll hllt
      rw [this] at hmt
      omega
  · intro buf toks hvals hbuf
    apply scanGo_bps_eq
    · intro m hmem
      rw [MakeBps.aob_to_bytes_mask] at hmem
      simp only [List.mem_map] at hmem
      obtain ⟨t, ht, hmt⟩ := hmem
      cases t with
      | none => exact Or.inl (by simpa using hmt.symm)
      | some v => exact Or.inr (by simpa using hmt.symm)
    · exact hbuf
    · intro p hmem
      rw [MakeBps.aob_to_bytes_mask] at hmem
      simp only [List.mem_map] at hmem
      obtain ⟨t, ht, hmt⟩ := hmem
      cases t with
      | none => simp only [Option.getD_none] at hmt; omega
      | some v =>
        have := hvals (some v) ht v rfl
        simp only [Option.getD_some] at hmt
        omega
  · intro buf enc ps st nm g a rest h
    have h2 : MakeInline.scanGo (MakeInline.aob_to_pat_mask a).1
        (MakeInline.aob_to_pat_mask a).2 buf = none := h
    simp [MakeInline.runHooks, MakeInline.processSpec, MakeInline.targetsOf,
      MakeInline.runTargets, MakeInline.processTarget, MakeInline.resolveTarget,
      MakeInline.scan, h2]
  · intro buf eBW eD st nm g a rest h
    have h2 : MakeBps.scanGo (MakeBps.aob_to_bytes_mask a).1
        (MakeBps.aob_to_bytes_mask a).2 buf = none := h
    simp [MakeBps.runHooks, MakeBps.processHook, MakeBps.siteOf, MakeBps.scan_aob, h2]

/-- Witness for claim C6 at a concrete input: scanning `[5, 6, 7]` for the
single fixed token 0x06 resolves to offset 1, the lowest masked match. -/
theorem pattern_resolution_correct_witness :
    maskedMatch [5, 6, 7] (MakeInline.aob_to_pat_mask [(some 0, some 6)]).1
      (MakeInline.aob_to_pat_mask [(some 0, some 6)]).2 1 ∧
    ∀ l, l < 1 → ¬ maskedMatch [5, 6, 7] (MakeInline.aob_to_pat_mask [(some 0, some 6)]).1
      (MakeInline.aob_to_pat_mask [(some 0, some 6)]).2 l :=
  (pattern_resolution_correct.1 [5, 6, 7] [(some 0, some 6)]).1 1 rfl

/-! ## Claim C5: cave allocation -/

lemma fccGo_main (need : Nat) (hn : 1 ≤ need) :
    ∀ (rev high : List Nat) (run : Nat),
      run ≤ high.length →
      (high.take run).all isFiller = true →
      run < need →
      (∀ c, high[run]? = some c → isFiller c = false) →
      (∀ j, rev.length ≤ j → ¬ fillerWin (rev.reverse ++ high) j need) →
      ((∀ i, MakeInline.fccGo need rev run = some i →
          fillerWin (rev.reverse ++ high) i need ∧
          ∀ j, i < j → ¬ fillerWin (rev.reverse ++ high) j need) ∧
       (MakeInline.fccGo need rev run = none →
          ∀ j, ¬ fillerWin (rev.reverse ++ high) j need)) := by
  intro rev
  induction rev with
  | nil =>
    intro high run _ _ _ _ hB
    constructor
    · intro i hi
      exact absurd hi (by simp [MakeInline.fccGo])
    · intro _ j
      exact hB j (by simp)
  | cons b rest ih =>
    intro high run hRun hA hC hD hB
    have hbuf : (b :: rest).reverse ++ high = rest.reverse ++ (b :: high) := by
      simp
    rw [hbuf] at hB ⊢
    by_cases hf : isFiller b = true
    · by_cases hr : need ≤ run + 1
      · have hfc : MakeInline.fccGo need (b :: rest) run = some rest.length := by
          simp [MakeInline.fccGo, hf, hr]
        constructor
        · intro i hi
          rw [hfc] at hi
          injection hi with hi
          subst hi
          constructor
          · constructor
            · simp only [List.length_append, List.length_reverse, List.length_cons]
              omega
            · have hdrop : (rest.reverse ++ (b :: high)).drop rest.length = b :: high :=
                List.drop_left' (by simp)
              rw [hdrop]
              obtain ⟨k, hk⟩ : ∃ k, need = k + 1 := ⟨need - 1, by omega⟩
              subst hk
              have hkrun : k = run := by omega
              subst hkrun
              rw [List.take_succ_cons, List.all_cons]
              simp [hf, hA]
          · intro j hj
            exact hB j (by simp only [List.length_cons]; omega)
        · intro hnone
          rw [hfc] at hnone
          exact absurd hnone (by simp)
      · have hfc : MakeInline.fccGo need (b :: rest) run =
            MakeInline.fccGo need rest (run + 1) := by
          simp [MakeInline.fccGo, hf, hr]
        have hB2 : ∀ j, rest.length ≤ j →
            ¬ fillerWin (rest.reverse ++ (b :: high)) j need := by
          intro j hj
          rcases Nat.eq_or_lt_of_le hj with hj1 | hj2
          · subst hj1
            rintro ⟨hbound, hwin⟩
            have hdrop : (rest.reverse ++ (b :: high)).drop rest.length = b :: high :=
              List.drop_left' (by simp)
            rw [hdrop] at hwin
            obtain ⟨k, hk⟩ : ∃ k, need = k + 1 := ⟨need - 1, by omega⟩
            subst hk
            rw [List.take_succ_cons, List.all_cons, Bool.and_eq_true] at hwin
            obtain ⟨-, hwin2⟩ := hwin
            simp only [List.length_append, List.length_reverse, List.length_cons] at hbound
            cases hget : high[run]? with
            | none =>
              have hlen : high.length ≤ run := List.getElem?_eq_none_iff.mp hget
              omega
            | some c =>
              have hcf : isFiller c = false := hD c hget
              have hmem : c ∈ high.take k := by
                refine List.getElem?_mem (n := run) ?_
                rw [List.getElem?_take_of_lt (by omega)]
                exact hget
              have := List.all_eq_true.mp hwin2 c hmem
              rw [hcf] at this
              exact absurd this (by simp)
          · exact hB j (by simp only [List.length_cons]; omega)
        have key := ih (b :: high) (run + 1)
          (by simp only [List.length_cons]; omega)
          (by rw [List.take_succ_cons, List.all_cons]; simp [hf, hA])
          (by omega)
          (by
            intro c hc
            rw [List.getElem?_cons_succ] at hc
            exact hD c hc)
          hB2
        rw [hfc]
        exact key
    · simp only [Bool.not_eq_true] at hf
      have hfc : MakeInline.fccGo need (b :: rest) run = MakeInline.fccGo need rest 0 := by
        simp [MakeInline.fccGo, hf]
      have hB2 : ∀ j, rest.length ≤ j →
          ¬ fillerWin (rest.reverse ++ (b :: high)) j need := by
        intro j hj
        rcases Nat.eq_or_lt_of_le hj with hj1 | hj2
        · subst hj1
          rintro ⟨hbound, hwin⟩
          have hdrop : (rest.reverse ++ (b :: high)).drop rest.length = b :: high :=
            List.drop_left' (by simp)
          rw [hdrop] at hwin
          obtain ⟨k, hk⟩ : ∃ k, need = k + 1 := ⟨need - 1, by omega⟩
          subst hk
          rw [List.take_succ_cons, List.all_cons, Bool.and_eq_true] at hwin
          rw [hf] at hwin
          exact absurd hwin.1 (by simp)
        · exact hB j (by simp only [List.length_cons]; omega)
      have key := ih (b :: high) 0 (by omega)
        (by simp)
        (by omega)
        (by
          intro c hc
          rw [show (b :: high)[0]? = some b from List.getElem?_cons_zero] at hc
          injection hc with hc
          subst hc
          exact hf)
        hB2
      rw [hfc]
      exact key

lemma find_code_cave_main (buf : List Nat) (need : Nat) (hn : 1 ≤ need) :
    (∀ i, MakeInline.find_code_cave buf need = some i →
       fillerWin buf i need ∧ ∀ j, i < j → ¬ fillerWin buf j need) ∧
    (MakeInline.find_code_cave buf need = none → ∀ j, ¬ fillerWin buf j need) := by
  have h := fccGo_main need hn buf.reverse [] 0 (by simp) (by simp) hn
    (by intro c hc; simp at hc)
    (by
      intro j hj hwin
      obtain ⟨hb, _⟩ := hwin
      simp only [List.append_nil, List.reverse_reverse] at hb
      simp only [List.length_reverse] at hj
      omega)
  simpa [MakeInline.find_code_cave, List.reverse_reverse, List.append_nil] using h

/-- Amended claim C5: the make_inline allocator scans from the end of the
image and returns the end-most all-filler window of the required length
(with nothing above it admitting such a window), and when no such window
exists it appends a zero-filled region of exactly the required size — that
path never fails.  The make_bps allocator, however, has NO growth fallback:
when no filler window exists its run aborts fatally with `caveExhausted`
before writing any file. -/
theorem cave_allocation_policies :
    (∀ (buf : List Nat) (need : Nat), 1 ≤ need →
       (∀ i, MakeInline.find_code_cave buf need = some i →
          fillerWin buf i need ∧ ∀ j, i < j → ¬ fillerWin buf j need) ∧
       (MakeInline.find_code_cave buf need = none → ∀ j, ¬ fillerWin buf j need)) ∧
    (∀ (buf : List Nat) (need : Nat),
       MakeInline.find_code_cave buf need = none →
       MakeInline.allocate buf need = (buf ++ List.replicate need 0, buf.length)) ∧
    (∀ (buf : List Nat) (need i : Nat),
       MakeInline.find_code_cave buf need = some i →
       MakeInline.allocate buf need = (buf, i)) ∧
    (∀ (buf : List Nat) (eBW : Int → Nat → List Nat) (eD : Nat → Nat → List Nat)
       (hooks : List MakeBps.HookSpec) (c a : List Nat → List Nat → List Nat),
       MakeBps.find_code_cave buf (MakeBps.arena_total hooks) = none →
       MakeBps.run buf eBW eD hooks c a = ([], .error .caveExhausted)) := by
  refine ⟨?_, ?_, ?_, ?_⟩
  · intro buf need hn
    exact find_code_cave_main buf need hn
  · intro buf need h
    simp [MakeInline.allocate, h]
  · intro buf need i h
    simp [MakeInline.allocate, h]
  · intro buf eBW eD hooks c a h
    simp [MakeBps.run, h]

/-- Witness for the amended claim C5: on the image `[1, 0, 0, 1]` with a
2-byte requirement the allocator returns the end-most filler window at
offset 1, and on the no-cave image `[1]` the inline allocator grows the
arena while the bps pipeline fails fatally. -/
theorem cave_allocation_policies_witness :
    (fillerWin [1, 0, 0, 1] 1 2 ∧ ∀ j, 1 < j → ¬ fillerWin [1, 0, 0, 1] j 2) ∧
    MakeInline.allocate [1] 96 = ([1] ++ List.replicate 96 0, 1) ∧
    MakeBps.run [1] (fun _ _ => []) (fun _ _ => []) [] (fun _ _ => []) (fun _ _ => [])
      = ([], .error .caveExhausted) :=
  ⟨(cave_allocation_policies.1 [1, 0, 0, 1] 2 (by decide)).1 1 rfl,
   cave_allocation_policies.2.1 [1] 96 rfl,
   cave_allocation_policies.2.2.2 [1] (fun _ _ => []) (fun _ _ => []) []
     (fun _ _ => []) (fun _ _ => []) rfl⟩

/-! ## Claim C9: resolution reads only the original image -/

lemma processTarget_proj (buf : List Nat) (enc : Nat → Nat → List Nat) (ps : Bool)
    (s : MakeInline.HookSpec) (st : MakeInline.RunState) (t : Option (Option Nat))
    (st' : MakeInline.RunState)
    (h : MakeInline.processTarget buf enc ps s st t = .ok st') :
    st'.rows.map (fun r => (r.site_off, r.guard_len, r.guard)) =
      st.rows.map (fun r => (r.site_off, r.guard_len, r.guard)) ++
        ((MakeInline.resolveTarget buf s.aob t).map
          (fun site => (site, (MakeInline.guardSnap buf s.guard site).1,
            (MakeInline.guardSnap buf s.guard site).2))).toList := by
  cases hres : MakeInline.resolveTarget buf s.aob t with
  | none =>
    simp only [MakeInline.processTarget, hres] at h
    injection h with h
    subst h
    simp
  | some site =>
    simp only [MakeInline.processTarget, hres] at h
    split at h
    · cases h
    · split at h
      · split at h
        · cases h
        · injection h with h
          rw [← h]
          simp
      · injection h with h
        rw [← h]
        simp

lemma runTargets_proj (buf : List Nat) (enc : Nat → Nat → List Nat) (ps : Bool)
    (s : MakeInline.HookSpec) : ∀ (ts : List (Option (Option Nat)))
    (st st' : MakeInline.RunState),
    MakeInline.runTargets buf enc ps s st ts = .ok st' →
    st'.rows.map (fun r => (r.site_off, r.guard_len, r.guard)) =
      st.rows.map (fun r => (r.site_off, r.guard_len, r.guard)) ++
        ts.filterMap (fun t => (MakeInline.resolveTarget buf s.aob t).map
          (fun site => (site, (MakeInline.guardSnap buf s.guard site).1,
            (MakeInline.guardSnap buf s.guard site).2))) := by
  intro ts
  induction ts with
  | nil =>
    intro st st' h
    injection h with h
    subst h
    simp
  | cons t ts ih =>
    intro st st' h
    cases hpt : MakeInline.processTarget buf enc ps s st t with
    | error e =>
      rw [show MakeInline.runTargets buf enc ps s st (t :: ts) =
        (match MakeInline.processTarget buf enc ps s st t with
         | .error e => .error e
         | .ok st1 => MakeInline.runTargets buf enc ps s st1 ts) from rfl, hpt] at h
      cases h
    | ok st1 =>
      rw [show MakeInline.runTargets buf enc ps s st (t :: ts) =
        (match MakeInline.processTarget buf enc ps s st t with
         | .error e => .error e
         | .ok st1 => MakeInline.runTargets buf enc ps s st1 ts) from rfl, hpt] at h
      have h1 := processTarget_proj buf enc ps s st t st1 hpt
      have h2 := ih st1 st' h
      rw [h2, h1]
      cases hres : MakeInline.resolveTarget buf s.aob t <;>
        simp [List.filterMap_cons, hres]

lemma runHooks_proj (buf : List Nat) (enc : Nat → Nat → List Nat) (ps : Bool) :
    ∀ (specs : List MakeInline.HookSpec) (st st' : MakeInline.RunState),
    MakeInline.runHooks buf enc ps st specs = .ok st' →
    st'.rows.map (fun r => (r.site_off, r.guard_len, r.guard)) =
      st.rows.map (fun r => (r.site_off, r.guard_len, r.guard)) ++
        specs.flatMap (MakeInline.resolvedOf buf) := by
  intro specs
  induction specs with
  | nil =>
    intro st st' h
    injection h with h
    subst h
    simp
  | cons s ss ih =>
    intro st st' h
    cases hps : MakeInline.processSpec buf enc ps st s with
    | error e =>
      rw [show MakeInline.runHooks buf enc ps st (s :: ss) =
        (match MakeInline.processSpec buf enc ps st s with
         | .error e => .error e
         | .ok st1 => MakeInline.runHooks buf enc ps st1 ss) from rfl, hps] at h
      cases h
    | ok st1 =>
      rw [show MakeInline.runHooks buf enc ps st (s :: ss) =
        (match MakeInline.processSpec buf enc ps st s with
         | .error e => .error e
         | .ok st1 => MakeInline.runHooks buf enc ps st1 ss) from rfl, hps] at h
      have h1 := runTargets_proj buf enc ps s (MakeInline.targetsOf s) st st1 hps
      have h2 := ih st1 st' h
      rw [h2, h1, List.flatMap_cons, List.append_assoc]
      rfl

lemma processHook_sites (buf : List Nat) (eBW : Int → Nat → List Nat)
    (eD : Nat → Nat → List Nat) (st : MakeBps.RunState) (s : MakeBps.HookSpec)
    (st' : MakeBps.RunState)
    (h : MakeBps.processHook buf eBW eD st s = .ok st') :
    st'.records.map (fun r => r.site_off) =
      st.records.map (fun r => r.site_off) ++ (MakeBps.acceptedSite buf s).toList := by
  cases hres : MakeBps.siteOf buf s with
  | none =>
    simp only [MakeBps.processHook, hres] at h
    injection h with h
    subst h
    simp [MakeBps.acceptedSite, hres]
  | some site =>
    simp only [MakeBps.processHook, hres] at h
    cases hg : MakeBps.guardPass buf s site with
    | false =>
      rw [hg] at h
      simp only [Bool.false_eq_true, if_false] at h
      injection h with h
      subst h
      simp [MakeBps.acceptedSite, hres, hg]
    | true =>
      rw [hg] at h
      simp only [if_true] at h
      split at h
      · cases h
      · injection h with h
        rw [← h]
        simp [MakeBps.acceptedSite, hres, hg]

lemma runHooksBps_sites (buf : List Nat) (eBW : Int → Nat → List Nat)
    (eD : Nat → Nat → List Nat) :
    ∀ (specs : List MakeBps.HookSpec) (st st' : MakeBps.RunState),
    MakeBps.runHooks buf eBW eD st specs = .ok st' →
    st'.records.map (fun r => r.site_off) =
      st.records.map (fun r => r.site_off) ++
        specs.filterMap (MakeBps.acceptedSite buf) := by
  intro specs
  induction specs with
  | nil =>
    intro st st' h
    injection h with h
    subst h
    simp
  | cons s ss ih =>
    intro st st' h
    cases hph : MakeBps.processHook buf eBW eD st s with
    | error e =>
      rw [show MakeBps.runHooks buf eBW eD st (s :: ss) =
        (match MakeBps.processHook buf eBW eD st s with
         | .error e => .error e
         | .ok st1 => MakeBps.runHooks buf eBW eD st1 ss) from rfl, hph] at h
      cases h
    | ok st1 =>
      rw [show MakeBps.runHooks buf eBW eD st (s :: ss) =
        (match MakeBps.processHook buf eBW eD st s with
         | .error e => .error e
         | .ok st1 => MakeBps.runHooks buf eBW eD st1 ss) from rfl, hph] at h
      have h1 := processHook_sites buf eBW eD st s st1 hph
      have h2 := ih st1 st' h
      rw [h2, h1]
      cases hacc : MakeBps.acceptedSite buf s <;>
        simp [List.filterMap_cons, hacc]

/-- Claim C9: every pattern scan and guard read is performed against the
immutable original image: the (site offset, guard length, guard bytes) data
of all records produced by a run is a pure function of the original image
and the spec list — it does not depend on the mutable buffer or the arena
cursor of the starting state, hence not on any trampoline or detour written
by earlier hooks. -/
theorem resolution_independent_of_mutation :
    (∀ (buf : List Nat) (enc : Nat → Nat → List Nat) (ps : Bool)
       (specs : List MakeInline.HookSpec) (st0 st : MakeInline.RunState),
       MakeInline.runHooks buf enc ps st0 specs = .ok st →
       st.rows.map (fun r => (r.site_off, r.guard_len, r.guard)) =
         st0.rows.map (fun r => (r.site_off, r.guard_len, r.guard)) ++
           specs.flatMap (MakeInline.resolvedOf buf)) ∧
    (∀ (buf : List Nat) (eBW : Int → Nat → List Nat) (eD : Nat → Nat → List Nat)
       (specs : List MakeBps.HookSpec) (st0 st : MakeBps.RunState),
       MakeBps.runHooks buf eBW eD st0 specs = .ok st →
       st.records.map (fun r => r.site_off) =
         st0.records.map (fun r => r.site_off) ++
           specs.filterMap (MakeBps.acceptedSite buf)) :=
  ⟨fun buf enc ps specs st0 st h => runHooks_proj buf enc ps specs st0 st h,
   fun buf eBW eD specs st0 st h => runHooksBps_sites buf eBW eD specs st0 st h⟩

/-- Witness for claim C9 at a concrete run: one explicit-address hook over
the image `[7, 7]` yields exactly the pure resolution data. -/
theorem resolution_independent_of_mutation_witness :
    ([⟨"a", 0, 0, [], 0⟩] : List MakeInline.HookRecord).map
        (fun r => (r.site_off, r.guard_len, r.guard)) =
      ([] : List MakeInline.HookRecord).map
          (fun r => (r.site_off, r.guard_len, r.guard)) ++
        [(⟨"a", some [some 0], none, none⟩ : MakeInline.HookSpec)].flatMap
          (MakeInline.resolvedOf [7, 7]) :=
  resolution_independent_of_mutation.1 [7, 7] (fun _ _ => List.replicate 8 9) false
    [⟨"a", some [some 0], none, none⟩] ⟨[7, 7], 0, []⟩
    ⟨[7, 7, 9, 9, 9, 9, 9, 9, 9, 9], 96, [⟨"a", 0, 0, [], 0⟩]⟩ rfl

/-! ## Claim C1: where the stolen bytes come from -/

lemma writeBytes_length (l : List Nat) (off : Nat) (d : List Nat)
    (h : off ≤ l.length) :
    (writeBytes l off d).length = max l.length (off + d.length) := by
  simp only [writeBytes, List.length_append, List.length_take, List.length_drop]
  omega

lemma writeBytes_drop_at (l : List Nat) (off : Nat) (d : List Nat)
    (h : off ≤ l.length) :
    (writeBytes l off d).drop off = d ++ l.drop (off + d.length) := by
  unfold writeBytes
  rw [List.append_assoc]
  have hlen1 : (l.take off).length = off := by
    simp only [List.length_take]
    omega
  exact List.drop_left' hlen1

lemma writeBytes_drop_outside (l : List Nat) (off : Nat) (d : List Nat) (cur : Nat)
    (h1 : off ≤ l.length) (h2 : off + d.length ≤ cur) :
    (writeBytes l off d).drop cur = l.drop cur := by
  have h3 : (l.take off ++ d).length = off + d.length := by
    simp only [List.length_append, List.length_take]
    omega
  have key : ∀ n, (writeBytes l off d).drop (off + d.length + n) =
      l.drop (off + d.length + n) := by
    intro n
    unfold writeBytes
    rw [show off + d.length + n = (l.take off ++ d).length + n by rw [h3]]
    rw [List.drop_append, List.drop_drop, h3]
  rw [show cur = off + d.length + (cur - off - d.length) by omega]
  exact key _

/-- Amended claim C1: the stolen bytes are read from the MUTABLE buffer at
the moment the site is processed.  Whenever the mutable buffer still agrees
with the original image on the stolen window — in particular when no
earlier hook of the run has written into it — the bytes copied into the
trampoline equal the original image content at the site; when an earlier
detour or trampoline overlaps the window they do not (see the
counterexample). -/
theorem stolen_bytes_read_from_mutable_buffer :
    ∀ (buf : List Nat) (enc : Nat → Nat → List Nat) (ps : Bool)
      (s : MakeInline.HookSpec) (st : MakeInline.RunState)
      (t : Option (Option Nat)) (site : Nat),
      MakeInline.resolveTarget buf s.aob t = some site →
      (∀ v o, (enc v o).length = 8) →
      (st.mod.drop site).take MakeInline.STOLEN_SIZE =
        (buf.drop site).take MakeInline.STOLEN_SIZE →
      site + MakeInline.STOLEN_SIZE ≤ buf.length →
      st.cur ≤ st.mod.length →
      site + MakeInline.STOLEN_SIZE ≤ st.cur →
      ∃ st' : MakeInline.RunState,
        MakeInline.processTarget buf enc ps s st t = .ok st' ∧
        (st'.mod.drop st.cur).take MakeInline.STOLEN_SIZE =
          (buf.drop site).take MakeInline.STOLEN_SIZE := by
  intro buf enc ps s st t site hres henc hagree hsite hcur hdisj
  have h8 : ((st.mod.drop site).take MakeInline.STOLEN_SIZE).length =
      MakeInline.STOLEN_SIZE := by
    rw [hagree]
    simp only [List.length_take, List.length_drop, MakeInline.STOLEN_SIZE] at hsite ⊢
    omega
  have hjlen := henc (MakeInline.CODE_BASE + (site + MakeInline.STOLEN_SIZE))
    (st.cur + ((st.mod.drop site).take MakeInline.STOLEN_SIZE).length)
  have hdlen := henc (MakeInline.CODE_BASE + st.cur) site
  have hwin : ((writeBytes st.mod st.cur
      (((st.mod.drop site).take MakeInline.STOLEN_SIZE) ++
        enc (MakeInline.CODE_BASE + (site + MakeInline.STOLEN_SIZE))
          (st.cur + ((st.mod.drop site).take MakeInline.STOLEN_SIZE).length))).drop
        st.cur).take MakeInline.STOLEN_SIZE =
      (st.mod.drop site).take MakeInline.STOLEN_SIZE := by
    rw [writeBytes_drop_at _ _ _ hcur, List.append_assoc]
    exact List.take_left' h8
  cases ps with
  | false =>
    refine ⟨⟨writeBytes st.mod st.cur
        (((st.mod.drop site).take MakeInline.STOLEN_SIZE) ++
          enc (MakeInline.CODE_BASE + (site + MakeInline.STOLEN_SIZE))
            (st.cur + ((st.mod.drop site).take MakeInline.STOLEN_SIZE).length)),
      st.cur + MakeInline.per_tramp,
      st.rows ++ [⟨s.name, site, st.cur, (MakeInline.guardSnap buf s.guard site).2,
        (MakeInline.guardSnap buf s.guard site).1⟩]⟩, ?_, ?_⟩
    · simp only [MakeInline.processTarget, hres, hjlen, ne_eq, not_true_eq_false,
        Bool.false_eq_true, if_false, reduceIte]
    · rw [← hagree]
      exact hwin
  | true =>
    have hdisj8 : site + 8 ≤ st.cur := hdisj
    have hmod1len : site ≤ (writeBytes st.mod st.cur
        (((st.mod.drop site).take MakeInline.STOLEN_SIZE) ++
          enc (MakeInline.CODE_BASE + (site + MakeInline.STOLEN_SIZE))
            (st.cur + ((st.mod.drop site).take MakeInline.STOLEN_SIZE).length))).length := by
      rw [writeBytes_length _ _ _ hcur]
      omega
    refine ⟨⟨writeBytes
        (writeBytes st.mod st.cur
          (((st.mod.drop site).take MakeInline.STOLEN_SIZE) ++
            enc (MakeInline.CODE_BASE + (site + MakeInline.STOLEN_SIZE))
              (st.cur + ((st.mod.drop site).take MakeInline.STOLEN_SIZE).length)))
        site (enc (MakeInline.CODE_BASE + st.cur) site),
      st.cur + MakeInline.per_tramp,
      st.rows ++ [⟨s.name, site, st.cur, (MakeInline.guardSnap buf s.guard site).2,
        (MakeInline.guardSnap buf s.guard site).1⟩]⟩, ?_, ?_⟩
    · simp only [MakeInline.processTarget, hres, hjlen, hdlen, ne_eq, not_true_eq_false,
        Bool.false_eq_true, if_false, reduceIte]
    · rw [writeBytes_drop_outside _ _ _ _ hmod1len (by rw [hdlen]; exact hdisj8)]
      rw [← hagree]
      exact hwin

/-- Witness for the amended claim C1: with an untouched buffer window the
stolen bytes written into the trampoline equal the original image bytes. -/
theorem stolen_bytes_read_from_mutable_buffer_witness :
    ∃ st' : MakeInline.RunState,
      MakeInline.processTarget (List.replicate 24 7) (fun _ _ => List.replicate 8 9) false
        ⟨"a", some [some 0], none, none⟩ ⟨List.replicate 24 7, 8, []⟩ (some (some 0))
        = .ok st' ∧
      (st'.mod.drop 8).take MakeInline.STOLEN_SIZE =
        ((List.replicate 24 7).drop 0).take MakeInline.STOLEN_SIZE :=
  stolen_bytes_read_from_mutable_buffer (List.replicate 24 7)
    (fun _ _ => List.replicate 8 9) false ⟨"a", some [some 0], none, none⟩
    ⟨List.replicate 24 7, 8, []⟩ (some (some 0)) 0 rfl (fun _ _ => rfl)
    rfl (by decide) (by decide) (by decide)
